import Mathlib

/-!
Verification of the orchestration core of `atris/research/rlm_simulation.py`.

The Python file implements a Recursive Language Model (RLM) simulator:
an orchestration loop (`RLMSimulator.run`) that keeps a large `context`
string outside the agent prompts, lets the agent emit fenced `repl` code
blocks, executes them in a sandboxed environment (`execute_repl_code`),
threads a sub-agent call (`llm_query`) into that environment, and detects
termination markers (`check_final_answer`).

The shallow embedding below mirrors the Python source:
  - `Value` / `Env` model the dynamically typed variable dictionary;
  - `Stmt` / `Expr` deep-embed the effects sandboxed code can perform
    through the injected bindings (`context`, `llm_query`, `print`, and
    ordinary assignment).  The Python `exec` builtin itself is external
    to the repository, so a run is parameterised by a denotation
    `denote : String → List Stmt` giving the meaning of each extracted
    code-block string;
  - `check_final_answer`, `extract_code_blocks`, `execute_repl_code`,
    `llm_query`, `stepIter`/`runLoop`/`run` are direct translations of
    the corresponding Python methods, with the agent capability
    (`simulated_llm` in the demo) abstracted as a function parameter,
    as the specification treats it as an external collaborator.
-/

namespace RLM

/-- Dynamically typed values stored in the sandbox variable dictionary.
`vBuiltin` stands for the injected non-data bindings (function objects,
module objects such as `re` and `json`, and `__builtins__`). -/
inductive Value where
  | vStr (s : String)
  | vInt (n : Int)
  | vBuiltin (name : String)
deriving DecidableEq, Repr

/-- Python `str()` conversion, as used by `check_final_answer` on
variable-reference resolution. -/
def Value.toPyStr : Value → String
  | .vStr s => s
  | .vInt n => toString n
  | .vBuiltin n => "<built-in " ++ n ++ ">"

/-- The variable dictionary: association list from names to values, with
unique keys in every state the program actually builds (Python dicts). -/
abbrev Env := List (String × Value)

/-- Dictionary lookup (`d[k]` / `d.get(k)`). -/
def lookupEnv : Env → String → Option Value
  | [], _ => none
  | (a, b) :: t, q => if a = q then some b else lookupEnv t q

/-- Dictionary write `d[k] = v`: replace the first binding of `k` in
place, or append a fresh binding. -/
def updateVar : Env → String → Value → Env
  | [], k, v => [(k, v)]
  | (a, b) :: t, k, v => if a = k then (k, v) :: t else (a, b) :: updateVar t k v

/-- The keys of an environment. -/
def envKeys (e : Env) : List String := e.map Prod.fst

/-- Keys are pairwise distinct, as in a Python dict. -/
def keysNodup (e : Env) : Prop := (envKeys e).Nodup

instance (e : Env) : Decidable (keysNodup e) := by
  unfold keysNodup; infer_instance

theorem lookup_updateVar (e : Env) (k : String) (v : Value) (q : String) :
    lookupEnv (updateVar e k v) q = if k = q then some v else lookupEnv e q := by
  induction e with
  | nil => simp [updateVar, lookupEnv]
  | cons hd t ih =>
    obtain ⟨a, b⟩ := hd
    by_cases hak : a = k
    · subst hak
      by_cases hq : a = q <;> simp [updateVar, lookupEnv, hq]
    · by_cases hq : a = q
      · subst hq
        have : ¬ k = a := fun h => hak h.symm
        simp [updateVar, lookupEnv, hak, this]
      · simp [updateVar, lookupEnv, hak, hq, ih]

theorem mem_envKeys_updateVar (e : Env) (k : String) (v : Value) (q : String) :
    q ∈ envKeys (updateVar e k v) ↔ q ∈ envKeys e ∨ q = k := by
  induction e with
  | nil => simp [updateVar, envKeys]
  | cons hd t ih =>
    obtain ⟨a, b⟩ := hd
    by_cases hak : a = k
    · subst hak
      simp [updateVar, envKeys]
      tauto
    · simp only [updateVar, hak, if_false]
      simp [envKeys] at ih ⊢
      rw [ih]
      tauto

theorem keysNodup_updateVar (e : Env) (k : String) (v : Value) :
    keysNodup e → keysNodup (updateVar e k v) := by
  induction e with
  | nil => intro _; simp [updateVar, keysNodup, envKeys]
  | cons hd t ih =>
    obtain ⟨a, b⟩ := hd
    intro h
    by_cases hak : a = k
    · subst hak
      simpa [updateVar, keysNodup, envKeys] using h
    · simp only [keysNodup, envKeys, List.map_cons, List.nodup_cons] at h
      have h1 := h.1
      have h2 := ih h.2
      simp only [updateVar, hak, if_false, keysNodup, envKeys, List.map_cons,
        List.nodup_cons]
      refine ⟨?_, h2⟩
      intro hmem
      have := (mem_envKeys_updateVar t k v a).1 hmem
      rcases this with h3 | h3
      · exact h1 h3
      · exact hak h3

theorem lookup_eq_none_of_not_mem (e : Env) (q : String) (h : q ∉ envKeys e) :
    lookupEnv e q = none := by
  induction e with
  | nil => rfl
  | cons hd t ih =>
    obtain ⟨a, b⟩ := hd
    simp [envKeys] at h
    have haq : ¬ a = q := fun hh => h.1 hh.symm
    simp [lookupEnv, haq, ih (by simpa [envKeys] using h.2)]

theorem isSome_lookup_updateVar (e : Env) (k : String) (v : Value) (q : String)
    (h : (lookupEnv e q).isSome) : (lookupEnv (updateVar e k v) q).isSome := by
  rw [lookup_updateVar]
  by_cases hk : k = q <;> simp [hk, h]

/-- Write every binding of `l` into `base`, in order: the semantics of
`exec_globals.update(self.state.variables)`. -/
def updAll (base : Env) (l : Env) : Env :=
  l.foldl (fun g kv => updateVar g kv.1 kv.2) base

theorem keysNodup_updAll (base : Env) (l : Env) (h : keysNodup base) :
    keysNodup (updAll base l) := by
  induction l generalizing base with
  | nil => exact h
  | cons hd t ih =>
    simpa [updAll, List.foldl_cons] using
      ih (updateVar base hd.1 hd.2) (keysNodup_updateVar base hd.1 hd.2 h)

theorem lookup_updAll (base : Env) (l : Env) (hl : keysNodup l) (q : String) :
    lookupEnv (updAll base l) q =
      match lookupEnv l q with
      | some v => some v
      | none => lookupEnv base q := by
  induction l generalizing base with
  | nil => simp [updAll, lookupEnv]
  | cons hd t ih =>
    obtain ⟨a, b⟩ := hd
    simp only [keysNodup, envKeys, List.map_cons, List.nodup_cons] at hl
    by_cases haq : a = q
    · subst haq
      have hnone : lookupEnv t a = none :=
        lookup_eq_none_of_not_mem t a hl.1
      simp [updAll, List.foldl_cons, lookupEnv, hnone]
      have := ih (updateVar base a b) hl.2
      simp only [updAll] at this
      rw [this, hnone, lookup_updateVar]
      simp
    · simp only [updAll, List.foldl_cons]
      have := ih (updateVar base a b) hl.2
      simp only [updAll] at this
      rw [this]
      simp only [lookupEnv, haq, if_false]
      cases htq : lookupEnv t q with
      | some v => rfl
      | none => rw [lookup_updateVar]; simp [haq]

/-- The names excluded from the save-variables loop in
`execute_repl_code` (the tuple at line 222 of the source). -/
def excludedNames : List String :=
  ["context", "llm_query", "print", "re", "json", "__builtins__"]

/-- Merge the post-execution global namespace back into the variable
dictionary: `for k, v in exec_globals.items(): if k not in (...):
self.state.variables[k] = v`. -/
def mergeGlobals (vars : Env) (genv : Env) : Env :=
  genv.foldl (fun vs kv => if kv.1 ∈ excludedNames then vs else updateVar vs kv.1 kv.2) vars

theorem lookup_mergeGlobals_excluded (vars genv : Env) (q : String)
    (hq : q ∈ excludedNames) :
    lookupEnv (mergeGlobals vars genv) q = lookupEnv vars q := by
  induction genv generalizing vars with
  | nil => rfl
  | cons hd t ih =>
    obtain ⟨a, b⟩ := hd
    by_cases ha : a ∈ excludedNames
    · simp only [mergeGlobals, List.foldl_cons, ha, if_true]
      exact ih vars
    · have haq : ¬ a = q := fun h => ha (h ▸ hq)
      simp only [mergeGlobals, List.foldl_cons, ha, if_false]
      have := ih (updateVar vars a b)
      simp only [mergeGlobals] at this
      rw [this, lookup_updateVar]
      simp [haq]

theorem lookup_mergeGlobals_of_nodup (vars genv : Env) (q : String)
    (hg : keysNodup genv) (hq : q ∉ excludedNames) :
    lookupEnv (mergeGlobals vars genv) q =
      match lookupEnv genv q with
      | some v => some v
      | none => lookupEnv vars q := by
  induction genv generalizing vars with
  | nil => simp [mergeGlobals, lookupEnv]
  | cons hd t ih =>
    obtain ⟨a, b⟩ := hd
    simp only [keysNodup, envKeys, List.map_cons, List.nodup_cons] at hg
    by_cases haq : a = q
    · subst haq
      have hnone : lookupEnv t a = none :=
        lookup_eq_none_of_not_mem t a hg.1
      have hax : a ∉ excludedNames := hq
      simp only [mergeGlobals, List.foldl_cons, hax, if_false, lookupEnv, if_pos rfl]
      have := ih (updateVar vars a b) hg.2
      simp only [mergeGlobals] at this
      rw [this, hnone, lookup_updateVar]
      simp
    · simp only [mergeGlobals, List.foldl_cons]
      by_cases hax : a ∈ excludedNames
      · simp only [hax, if_true]
        have := ih vars hg.2
        simp only [mergeGlobals] at this
        rw [this]
        simp [lookupEnv, haq]
      · simp only [hax, if_false]
        have := ih (updateVar vars a b) hg.2
        simp only [mergeGlobals] at this
        rw [this]
        simp only [lookupEnv, haq, if_false]
        cases htq : lookupEnv t q with
        | some v => rfl
        | none => rw [lookup_updateVar]; simp [haq]

theorem keysNodup_mergeGlobals (vars genv : Env) (h : keysNodup vars) :
    keysNodup (mergeGlobals vars genv) := by
  induction genv generalizing vars with
  | nil => exact h
  | cons hd t ih =>
    simp only [mergeGlobals, List.foldl_cons]
    by_cases hax : hd.1 ∈ excludedNames
    · simp only [hax, if_true]
      exact ih vars h
    · simp only [hax, if_false]
      exact ih (updateVar vars hd.1 hd.2) (keysNodup_updateVar vars hd.1 hd.2 h)

theorem isSome_lookup_mergeGlobals (vars genv : Env) (q : String)
    (h : (lookupEnv vars q).isSome) :
    (lookupEnv (mergeGlobals vars genv) q).isSome := by
  induction genv generalizing vars with
  | nil => exact h
  | cons hd t ih =>
    simp only [mergeGlobals, List.foldl_cons]
    by_cases hax : hd.1 ∈ excludedNames
    · simp only [hax, if_true]
      exact ih vars h
    · simp only [hax, if_false]
      exact ih (updateVar vars hd.1 hd.2)
        (isSome_lookup_updateVar vars hd.1 hd.2 q h)

/-- The `REPLState` dataclass (source lines 152-160): context blob,
variable dictionary, most recent captured output, and the running
counters. -/
structure REPLState where
  context : String
  vars : Env
  output_buffer : String
  sub_call_count : Nat
  total_tokens_root : Nat
  total_tokens_sub : Nat
deriving DecidableEq, Repr

/-- Fresh state at run start: `REPLState(context=context)` with the
dataclass defaults (empty dict, empty buffer, zero counters). -/
def initState (context : String) : REPLState :=
  { context := context, vars := [], output_buffer := "",
    sub_call_count := 0, total_tokens_root := 0, total_tokens_sub := 0 }

/-- The external Agent Capability: `call(prompt, is_sub_call) -> text`.
The demo binds it to `simulated_llm`; the spec treats it as opaque. -/
def AgentFun := String → Bool → String

/-- `len(s.split())`: number of maximal whitespace-free words. -/
def pyWords (s : String) : Nat :=
  ((s.split Char.isWhitespace).filter (fun t => !t.isEmpty)).length

/-- `RLMSimulator.llm_query` (source lines 182-193): bump the sub-call
counter and the sub token estimate, then call the agent with
`is_sub_call = true` and hand back its response. -/
def llm_query (agent : AgentFun) (st : REPLState) (prompt : String) :
    REPLState × String :=
  ({ st with
      sub_call_count := st.sub_call_count + 1,
      total_tokens_sub := st.total_tokens_sub + (pyWords prompt + 50) },
   agent prompt true)

/-- Expressions of the embedded sandbox code: literals and reads of
global bindings (including the injected `context`, `re`, `json`). -/
inductive Expr where
  | lit (v : Value)
  | var (x : String)
deriving DecidableEq, Repr

/-- Evaluate an expression against the execution globals; an unbound
name raises, as in Python. -/
def evalExpr (genv : Env) : Expr → Except String Value
  | .lit v => .ok v
  | .var x =>
    match lookupEnv genv x with
    | some v => .ok v
    | none => .error ("name " ++ x ++ " is not defined")

/-- Statements of the embedded sandbox code: the effects `exec`-ed agent
code can perform through the injected bindings — top-level assignment,
captured `print`, a sub-agent call `x = llm_query(e)`, and raising a
runtime fault. -/
inductive Stmt where
  | assign (x : String) (e : Expr)
  | printE (e : Expr)
  | subCall (x : String) (e : Expr)
  | raiseE (msg : String)
deriving DecidableEq, Repr

/-- Whether a statement (re)binds the top-level name `x`. -/
def bindsVar (x : String) : Stmt → Bool
  | .assign y _ => y == x
  | .subCall y _ => y == x
  | _ => false

/-- Result of executing sandbox statements: updated session state
(counters), the execution globals, the capture buffer, and the fault
raised, if any. -/
structure ExecOut where
  st : REPLState
  genv : Env
  capture : String
  fault : Option String
deriving DecidableEq, Repr

/-- Execute one statement. `print` writes `str(v)` plus a newline into
the capture buffer (the injected `print` writes to `output_capture`). -/
def execStmt (agent : AgentFun) (st : REPLState) (genv : Env) (capture : String) :
    Stmt → ExecOut
  | .assign x e =>
    match evalExpr genv e with
    | .ok v => ⟨st, updateVar genv x v, capture, none⟩
    | .error m => ⟨st, genv, capture, some m⟩
  | .printE e =>
    match evalExpr genv e with
    | .ok v => ⟨st, genv, capture ++ v.toPyStr ++ "\n", none⟩
    | .error m => ⟨st, genv, capture, some m⟩
  | .subCall x e =>
    match evalExpr genv e with
    | .ok v =>
      let r := llm_query agent st v.toPyStr
      ⟨r.1, updateVar genv x (.vStr r.2), capture, none⟩
    | .error m => ⟨st, genv, capture, some m⟩
  | .raiseE m => ⟨st, genv, capture, some m⟩

/-- Execute a statement sequence, stopping at the first fault (the
remainder of the block is skipped, as with a raised exception). -/
def runStmts (agent : AgentFun) (st : REPLState) (genv : Env) (capture : String) :
    List Stmt → ExecOut
  | [] => ⟨st, genv, capture, none⟩
  | s :: rest =>
    let r := execStmt agent st genv capture s
    match r.fault with
    | none => runStmts agent r.st r.genv r.capture rest
    | some _ => r

/-- The execution globals handed to `exec` (source lines 209-216): the
five injected bindings, overlaid with the accumulated variables, plus
the `__builtins__` entry that `exec` itself inserts. -/
def execGlobals (st : REPLState) : Env :=
  updateVar
    (updAll
      [("context", Value.vStr st.context),
       ("llm_query", Value.vBuiltin "llm_query"),
       ("print", Value.vBuiltin "print"),
       ("re", Value.vBuiltin "re"),
       ("json", Value.vBuiltin "json")]
      st.vars)
    "__builtins__" (Value.vBuiltin "__builtins__")

/-- `RLMSimulator.execute_repl_code` (source lines 195-234): run the
code against the globals; on success merge non-system bindings back
into `variables`; on a fault append `Error: {e}` to the capture
instead.  Either way the capture becomes `output_buffer` and is
returned. -/
def execute_repl_code (agent : AgentFun) (st : REPLState) (code : List Stmt) :
    REPLState × String :=
  let r := runStmts agent st (execGlobals st) "" code
  match r.fault with
  | none =>
    let out := r.capture
    ({ r.st with vars := mergeGlobals r.st.vars r.genv,
                 output_buffer := out }, out)
  | some e =>
    let out := r.capture ++ "Error: " ++ e
    ({ r.st with output_buffer := out }, out)

/-- Index of the first occurrence of three consecutive backticks. -/
def findTriple : List Char → Option Nat
  | [] => none
  | c :: rest =>
    if ("```".data).isPrefixOf (c :: rest) then some 0
    else (findTriple rest).map (fun n => n + 1)

/-- Scanner for `re.findall(r'(three backticks)repl\n(.*?)(three backticks)', response, re.DOTALL)`:
at each position, an opening fence followed by a closing triple yields the
lazily matched block, and scanning resumes after the closing triple;
otherwise the scan advances one character (leftmost, non-overlapping
matches).  Every step strictly shortens the list, so running the scan
with the length of the list as structural fuel is exhaustive. -/
def extractBlocksAux : Nat → List Char → List (List Char)
  | 0, _ => []
  | _, [] => []
  | fuel + 1, c :: rest =>
    if ("```repl\n".data).isPrefixOf (c :: rest) then
      match findTriple ((c :: rest).drop 8) with
      | some idx =>
        ((c :: rest).drop 8).take idx ::
          extractBlocksAux fuel ((c :: rest).drop (11 + idx))
      | none => extractBlocksAux fuel rest
    else extractBlocksAux fuel rest

/-- `RLMSimulator.extract_code_blocks` (source lines 236-240). -/
def extract_code_blocks (response : String) : List String :=
  (extractBlocksAux response.data.length response.data).map String.mk

/-- Test for a closing parenthesis. -/
def isCloseParen (c : Char) : Bool := c == ')'

/-- Negation of `isCloseParen`, the continuation condition of the lazy
`.*?` match. -/
def notCloseParen (c : Char) : Bool := !(c == ')')

/-- Scanner for `re.search(r'FINAL\((.*?)\)', response, re.DOTALL)`: the
leftmost position carrying the literal `FINAL(` and followed by some
closing parenthesis matches, with the lazy group stopping at the first
closing parenthesis. -/
def finalPayload : List Char → Option (List Char)
  | [] => none
  | c :: rest =>
    if ("FINAL(".data).isPrefixOf (c :: rest) then
      let after := (c :: rest).drop 6
      if after.any isCloseParen then some (after.takeWhile notCloseParen)
      else finalPayload rest
    else finalPayload rest

/-- Python word character for `\w` (ASCII fragment). -/
def isWordChar (c : Char) : Bool := c.isAlphanum || c == '_'

/-- Scanner for `re.search(r'FINAL_VAR\((\w+)\)', response)`: the
leftmost position carrying `FINAL_VAR(`, at least one word character,
and a closing parenthesis directly after the maximal word-character run
matches. -/
def finalVarName : List Char → Option (List Char)
  | [] => none
  | c :: rest =>
    if ("FINAL_VAR(".data).isPrefixOf (c :: rest) then
      let after := (c :: rest).drop 10
      let nm := after.takeWhile isWordChar
      if nm.isEmpty then finalVarName rest
      else
        match after.drop nm.length with
        | d :: _ => if d == ')' then some nm else finalVarName rest
        | [] => finalVarName rest
    else finalVarName rest

/-- `RLMSimulator.check_final_answer` (source lines 242-255): the
literal `FINAL(...)` marker is checked first; otherwise a
`FINAL_VAR(name)` marker resolves `name` in the variable dictionary,
falling back to a placeholder string when the name is absent. -/
def check_final_answer (variablesMap : Env) (response : String) : Option String :=
  match finalPayload response.data with
  | some g => some (String.mk g)
  | none =>
    match finalVarName response.data with
    | some nm =>
      let n := String.mk nm
      match lookupEnv variablesMap n with
      | some v => some v.toPyStr
      | none => some ("[Variable " ++ n ++ " not found]")
    | none => none

/-- The initial prompt of `run` (source lines 277-284): only the length
of the context, the capability summary, and the query — never the
context content. -/
def systemPrompt (contextLen : Nat) (query : String) : String :=
  "You have access to a REPL environment with:\n- `context`: A string variable (" ++
  toString contextLen ++
  " chars) containing documents\n- `llm_query(prompt)`: Function to query a sub-LLM\n- `print()`: To output results\n\nWrite code to explore the context and answer: " ++
  query ++
  "\n\nWhen ready, use FINAL(answer) or FINAL_VAR(variable_name) to return."

/-- The follow-up prompt (source lines 313-317), built from the output
buffer and the query. -/
def nextPrompt (buffer query : String) : String :=
  "Previous REPL output:\n" ++ buffer ++
  "\n\nContinue exploring to answer: " ++ query ++
  "\nUse FINAL(answer) when ready."

/-- Substring test (used to state prompt-content properties). -/
def strContains (hay pat : String) : Bool :=
  decide (pat.data <:+: hay.data)

/-- Configuration of one simulator instance plus the external parts of
a run: the agent capability, and the Python meaning of extracted
code-block strings (the `exec` builtin, external to the repository). -/
structure Params where
  agent : AgentFun
  denote : String → List Stmt
  max_iterations : Nat

/-- Result of one loop iteration: the state afterwards, the prompt for
the next iteration, and the detected (truthy) final answer, if any. -/
structure StepOut where
  state : REPLState
  next : String
  answer : Option String

/-- Python truthiness of the detector result: `if final:` is false for
`None` and for the empty string. -/
def pyTruthy : Option String → Bool
  | none => false
  | some s => !s.isEmpty

/-- Run the code blocks of a response in order, each pass updating the
session state (`for code in code_blocks: output = self.execute_repl_code(code)`). -/
def runBlocks (P : Params) (st : REPLState) (response : String) : REPLState :=
  (extract_code_blocks response).foldl
    (fun s b => (execute_repl_code P.agent s (P.denote b)).1) st

/-- One iteration of the `while` body of `RLMSimulator.run` (source
lines 288-317): bump the root token estimate by the prompt size, call
the agent with `is_sub_call = false`, break on a truthy final answer,
else run the extracted blocks and build the next prompt from the
output buffer and the query. -/
def stepIter (P : Params) (query : String) (st : REPLState) (prompt : String) :
    StepOut :=
  let st1 := { st with total_tokens_root := st.total_tokens_root + (pyWords prompt + 100) }
  let response := P.agent prompt false
  let fin := check_final_answer st.vars response
  if pyTruthy fin then ⟨st1, prompt, fin⟩
  else
    let st2 := runBlocks P st1 response
    ⟨st2, nextPrompt st2.output_buffer query, none⟩

/-- Observable outcome of the loop: the iteration counter at exit, the
final session state, the resolved answer (if the loop broke on one),
and the trace of prompts passed to the root agent, in order. -/
structure LoopOut where
  iterations : Nat
  state : REPLState
  answer : Option String
  prompts : List String
deriving DecidableEq, Repr

/-- The `while self.iteration < self.max_iterations` loop of
`RLMSimulator.run`: iterate `stepIter`, incrementing the iteration
counter `iter` at the top of each pass, until a truthy final answer or
budget exhaustion.  The loop condition `iter < max_iterations` is
carried as the remaining budget `fuel = max_iterations - iter`
(established at the initial call in `run` and maintained by the
recursion); `fuel = 0` is exactly the condition failing. -/
def runLoop (P : Params) (query : String) :
    Nat → REPLState → String → Nat → LoopOut
  | 0, st, _, iter => ⟨iter, st, none, []⟩
  | fuel + 1, st, prompt, iter =>
    let r := stepIter P query st prompt
    match r.answer with
    | some ans => ⟨iter + 1, r.state, some ans, [prompt]⟩
    | none =>
      let rest := runLoop P query fuel r.state r.next (iter + 1)
      ⟨rest.iterations, rest.state, rest.answer, prompt :: rest.prompts⟩

/-- The summary dictionary returned by `RLMSimulator.run` (source lines
329-335). -/
structure RunResult where
  iterations : Nat
  sub_calls : Nat
  root_tokens : Nat
  sub_tokens : Nat
  varNames : List String
deriving DecidableEq, Repr

/-- A run with its observable trace: the returned summary, the printed
final answer (if any), the final session state, and the prompts sent to
the root agent. -/
structure RunTrace where
  result : RunResult
  answer : Option String
  finalState : REPLState
  prompts : List String
deriving DecidableEq, Repr

/-- `RLMSimulator.run` (source lines 257-335): initialise the session
state with the external context, build the metadata-only initial
prompt, drive the loop from iteration 0, and report the summary. -/
def run (P : Params) (context query : String) : RunTrace :=
  let r := runLoop P query P.max_iterations (initState context)
    (systemPrompt context.length query) 0
  { result :=
      { iterations := r.iterations,
        sub_calls := r.state.sub_call_count,
        root_tokens := r.state.total_tokens_root,
        sub_tokens := r.state.total_tokens_sub,
        varNames := envKeys r.state.vars },
    answer := r.answer,
    finalState := r.state,
    prompts := r.prompts }

/-- Pointwise order on the three running counters of the session
state. -/
def countersLE (a b : REPLState) : Prop :=
  a.sub_call_count ≤ b.sub_call_count ∧
  a.total_tokens_root ≤ b.total_tokens_root ∧
  a.total_tokens_sub ≤ b.total_tokens_sub

theorem countersLE_refl (a : REPLState) : countersLE a a :=
  ⟨le_refl _, le_refl _, le_refl _⟩

theorem countersLE_trans {a b c : REPLState} (h1 : countersLE a b)
    (h2 : countersLE b c) : countersLE a c :=
  ⟨h1.1.trans h2.1, h1.2.1.trans h2.2.1, h1.2.2.trans h2.2.2⟩

theorem execStmt_state (agent : AgentFun) (st : REPLState) (genv : Env)
    (cap : String) (s : Stmt) :
    (execStmt agent st genv cap s).st.vars = st.vars ∧
    (execStmt agent st genv cap s).st.context = st.context ∧
    (execStmt agent st genv cap s).st.output_buffer = st.output_buffer ∧
    countersLE st (execStmt agent st genv cap s).st := by
  cases s with
  | assign x e =>
    cases hv : evalExpr genv e <;>
      simp [execStmt, hv, countersLE]
  | printE e =>
    cases hv : evalExpr genv e <;>
      simp [execStmt, hv, countersLE]
  | subCall x e =>
    cases hv : evalExpr genv e <;>
      simp [execStmt, hv, llm_query, countersLE]
  | raiseE m =>
    simp [execStmt, countersLE]

theorem execStmt_nodup (agent : AgentFun) (st : REPLState) (genv : Env)
    (cap : String) (s : Stmt) (h : keysNodup genv) :
    keysNodup (execStmt agent st genv cap s).genv := by
  cases s with
  | assign x e =>
    cases hv : evalExpr genv e with
    | error m => simpa [execStmt, hv] using h
    | ok v =>
      simp only [execStmt, hv]
      exact keysNodup_updateVar genv x v h
  | printE e =>
    cases hv : evalExpr genv e <;> simp [execStmt, hv] <;> exact h
  | subCall x e =>
    cases hv : evalExpr genv e with
    | error m => simpa [execStmt, hv] using h
    | ok v =>
      simp only [execStmt, hv]
      exact keysNodup_updateVar genv x _ h
  | raiseE m =>
    simpa [execStmt] using h

theorem execStmt_nobind (agent : AgentFun) (st : REPLState) (genv : Env)
    (cap : String) (s : Stmt) (x : String) (hb : bindsVar x s = false) :
    lookupEnv (execStmt agent st genv cap s).genv x = lookupEnv genv x := by
  cases s with
  | assign y e =>
    have hyx : ¬ y = x := by simpa [bindsVar] using hb
    cases hv : evalExpr genv e <;> simp [execStmt, hv]
    rw [lookup_updateVar]
    simp [hyx]
  | printE e =>
    cases hv : evalExpr genv e <;> simp [execStmt, hv]
  | subCall y e =>
    have hyx : ¬ y = x := by simpa [bindsVar] using hb
    cases hv : evalExpr genv e <;> simp [execStmt, hv]
    rw [lookup_updateVar]
    simp [hyx]
  | raiseE m =>
    simp [execStmt]

theorem runStmts_state (agent : AgentFun) (st : REPLState) (genv : Env)
    (cap : String) (code : List Stmt) :
    (runStmts agent st genv cap code).st.vars = st.vars ∧
    (runStmts agent st genv cap code).st.context = st.context ∧
    (runStmts agent st genv cap code).st.output_buffer = st.output_buffer ∧
    countersLE st (runStmts agent st genv cap code).st := by
  induction code generalizing st genv cap with
  | nil =>
    exact ⟨rfl, rfl, rfl, countersLE_refl st⟩
  | cons s rest ih =>
    have h1 := execStmt_state agent st genv cap s
    simp only [runStmts]
    cases hf : (execStmt agent st genv cap s).fault with
    | none =>
      simp only
      have h2 := ih (execStmt agent st genv cap s).st
        (execStmt agent st genv cap s).genv (execStmt agent st genv cap s).capture
      exact ⟨h2.1.trans h1.1, h2.2.1.trans h1.2.1, h2.2.2.1.trans h1.2.2.1,
        countersLE_trans h1.2.2.2 h2.2.2.2⟩
    | some m =>
      simp only
      exact h1

theorem runStmts_nodup (agent : AgentFun) (st : REPLState) (genv : Env)
    (cap : String) (code : List Stmt) (h : keysNodup genv) :
    keysNodup (runStmts agent st genv cap code).genv := by
  induction code generalizing st genv cap with
  | nil => exact h
  | cons s rest ih =>
    simp only [runStmts]
    cases hf : (execStmt agent st genv cap s).fault with
    | none =>
      simp only
      exact ih _ _ _ (execStmt_nodup agent st genv cap s h)
    | some m =>
      simp only
      exact execStmt_nodup agent st genv cap s h

theorem runStmts_nobind (agent : AgentFun) (st : REPLState) (genv : Env)
    (cap : String) (code : List Stmt) (x : String)
    (hb : ∀ s ∈ code, bindsVar x s = false) :
    lookupEnv (runStmts agent st genv cap code).genv x = lookupEnv genv x := by
  induction code generalizing st genv cap with
  | nil => rfl
  | cons s rest ih =>
    have hs : bindsVar x s = false := hb s (List.mem_cons_self s rest)
    have hrest : ∀ t ∈ rest, bindsVar x t = false :=
      fun t ht => hb t (List.mem_cons_of_mem s ht)
    simp only [runStmts]
    cases hf : (execStmt agent st genv cap s).fault with
    | none =>
      simp only
      rw [ih _ _ _ hrest]
      exact execStmt_nobind agent st genv cap s x hs
    | some m =>
      simp only
      exact execStmt_nobind agent st genv cap s x hs

theorem keysNodup_execGlobals (st : REPLState) : keysNodup (execGlobals st) := by
  unfold execGlobals
  refine keysNodup_updateVar _ _ _ (keysNodup_updAll _ _ ?_)
  simp only [keysNodup, envKeys, List.map_cons, List.map_nil]
  decide

theorem lookup_execGlobals (st : REPLState) (q : String)
    (hn : keysNodup st.vars) (hq : q ∉ excludedNames) :
    lookupEnv (execGlobals st) q = lookupEnv st.vars q := by
  have hqb : ¬ ("__builtins__" = q) := fun h =>
    hq (h ▸ (by decide : "__builtins__" ∈ excludedNames))
  have hc : ¬ ("context" = q) := fun h =>
    hq (h ▸ (by decide : "context" ∈ excludedNames))
  have hl : ¬ ("llm_query" = q) := fun h =>
    hq (h ▸ (by decide : "llm_query" ∈ excludedNames))
  have hp : ¬ ("print" = q) := fun h =>
    hq (h ▸ (by decide : "print" ∈ excludedNames))
  have hr : ¬ ("re" = q) := fun h =>
    hq (h ▸ (by decide : "re" ∈ excludedNames))
  have hj : ¬ ("json" = q) := fun h =>
    hq (h ▸ (by decide : "json" ∈ excludedNames))
  simp only [execGlobals]
  rw [lookup_updateVar]
  simp only [hqb, if_false]
  rw [lookup_updAll _ _ hn]
  cases hv : lookupEnv st.vars q with
  | some v => rfl
  | none =>
    simp [lookupEnv, hc, hl, hp, hr, hj]

theorem execute_state (agent : AgentFun) (st : REPLState) (code : List Stmt) :
    (execute_repl_code agent st code).1.context = st.context ∧
    countersLE st (execute_repl_code agent st code).1 := by
  have h := runStmts_state agent st (execGlobals st) "" code
  simp only [execute_repl_code]
  cases hf : (runStmts agent st (execGlobals st) "" code).fault with
  | none => exact ⟨h.2.1, h.2.2.2⟩
  | some e => exact ⟨h.2.1, h.2.2.2⟩

theorem execute_keysSome (agent : AgentFun) (st : REPLState) (code : List Stmt)
    (k : String) (h : (lookupEnv st.vars k).isSome) :
    (lookupEnv (execute_repl_code agent st code).1.vars k).isSome := by
  have hv := (runStmts_state agent st (execGlobals st) "" code).1
  simp only [execute_repl_code]
  cases hf : (runStmts agent st (execGlobals st) "" code).fault with
  | none =>
    simp only
    exact isSome_lookup_mergeGlobals _ _ k (hv ▸ h)
  | some e =>
    simp only
    exact hv ▸ h

theorem execute_nodup (agent : AgentFun) (st : REPLState) (code : List Stmt)
    (h : keysNodup st.vars) :
    keysNodup (execute_repl_code agent st code).1.vars := by
  have hv := (runStmts_state agent st (execGlobals st) "" code).1
  simp only [execute_repl_code]
  cases hf : (runStmts agent st (execGlobals st) "" code).fault with
  | none =>
    simp only
    exact keysNodup_mergeGlobals _ _ (hv ▸ h)
  | some e =>
    simp only
    exact hv ▸ h

theorem execute_nobind (agent : AgentFun) (st : REPLState) (code : List Stmt)
    (x : String) (v : Value) (hn : keysNodup st.vars) (hx : x ∉ excludedNames)
    (hb : ∀ s ∈ code, bindsVar x s = false)
    (hv : lookupEnv st.vars x = some v) :
    lookupEnv (execute_repl_code agent st code).1.vars x = some v := by
  have hvars := (runStmts_state agent st (execGlobals st) "" code).1
  simp only [execute_repl_code]
  cases hf : (runStmts agent st (execGlobals st) "" code).fault with
  | none =>
    simp only
    rw [lookup_mergeGlobals_of_nodup _ _ x
      (runStmts_nodup agent st (execGlobals st) "" code (keysNodup_execGlobals st)) hx]
    rw [runStmts_nobind agent st (execGlobals st) "" code x hb,
      lookup_execGlobals st x hn hx, hv]
  | some e =>
    simp only
    rw [hvars, hv]

theorem execute_assign (agent : AgentFun) (st : REPLState) (x : String)
    (v : Value) (hx : x ∉ excludedNames) :
    lookupEnv (execute_repl_code agent st [Stmt.assign x (Expr.lit v)]).1.vars x =
      some v := by
  simp only [execute_repl_code, runStmts, execStmt, evalExpr]
  rw [lookup_mergeGlobals_of_nodup _ _ x
    (keysNodup_updateVar _ _ _ (keysNodup_execGlobals st)) hx]
  rw [lookup_updateVar]
  simp

theorem foldlExec_counters (P : Params) (blocks : List String) :
    ∀ st : REPLState,
      countersLE st
        (blocks.foldl (fun s b => (execute_repl_code P.agent s (P.denote b)).1) st) := by
  induction blocks with
  | nil => exact fun st => countersLE_refl st
  | cons b rest ih =>
    intro st
    simp only [List.foldl_cons]
    exact countersLE_trans (execute_state P.agent st (P.denote b)).2
      (ih (execute_repl_code P.agent st (P.denote b)).1)

theorem foldlExec_persist (P : Params) (x : String) (v : Value)
    (hx : x ∉ excludedNames) (blocks : List String)
    (hb : ∀ b ∈ blocks, ∀ s ∈ P.denote b, bindsVar x s = false) :
    ∀ st : REPLState, keysNodup st.vars → lookupEnv st.vars x = some v →
      lookupEnv
          (blocks.foldl (fun s b => (execute_repl_code P.agent s (P.denote b)).1) st).vars
          x = some v ∧
        keysNodup
          (blocks.foldl (fun s b => (execute_repl_code P.agent s (P.denote b)).1) st).vars := by
  induction blocks with
  | nil => exact fun st hn hv => ⟨hv, hn⟩
  | cons b rest ih =>
    intro st hn hv
    simp only [List.foldl_cons]
    have hbb : ∀ s ∈ P.denote b, bindsVar x s = false :=
      hb b (List.mem_cons_self b rest)
    have hrest : ∀ c ∈ rest, ∀ s ∈ P.denote c, bindsVar x s = false :=
      fun c hc => hb c (List.mem_cons_of_mem b hc)
    have h1 := execute_nobind P.agent st (P.denote b) x v hn hx hbb hv
    have h2 := execute_nodup P.agent st (P.denote b) hn
    exact (fun st' hn' hv' => ih hrest st' hn' hv')
      (execute_repl_code P.agent st (P.denote b)).1 h2 h1

theorem foldlExec_keysSome (P : Params) (blocks : List String) (k : String) :
    ∀ st : REPLState, (lookupEnv st.vars k).isSome →
      (lookupEnv
        (blocks.foldl (fun s b => (execute_repl_code P.agent s (P.denote b)).1) st).vars
        k).isSome := by
  induction blocks with
  | nil => exact fun _ h => h
  | cons b rest ih =>
    intro st h
    simp only [List.foldl_cons]
    exact ih _ (execute_keysSome P.agent st (P.denote b) k h)

theorem stepIter_eq_none (P : Params) (q : String) (st : REPLState) (pr : String)
    (h : check_final_answer st.vars (P.agent pr false) = none) :
    stepIter P q st pr =
      ⟨runBlocks P
          { st with total_tokens_root := st.total_tokens_root + (pyWords pr + 100) }
          (P.agent pr false),
        nextPrompt
          (runBlocks P
            { st with total_tokens_root := st.total_tokens_root + (pyWords pr + 100) }
            (P.agent pr false)).output_buffer q,
        none⟩ := by
  simp only [stepIter, h]
  rfl

theorem stepIter_eq_empty (P : Params) (q : String) (st : REPLState) (pr : String)
    (s : String) (h : check_final_answer st.vars (P.agent pr false) = some s)
    (hs : s.isEmpty = true) :
    stepIter P q st pr =
      ⟨runBlocks P
          { st with total_tokens_root := st.total_tokens_root + (pyWords pr + 100) }
          (P.agent pr false),
        nextPrompt
          (runBlocks P
            { st with total_tokens_root := st.total_tokens_root + (pyWords pr + 100) }
            (P.agent pr false)).output_buffer q,
        none⟩ := by
  simp only [stepIter, h, pyTruthy, hs]
  rfl

theorem stepIter_eq_truthy (P : Params) (q : String) (st : REPLState) (pr : String)
    (s : String) (h : check_final_answer st.vars (P.agent pr false) = some s)
    (hs : s.isEmpty = false) :
    stepIter P q st pr =
      ⟨{ st with total_tokens_root := st.total_tokens_root + (pyWords pr + 100) },
        pr, some s⟩ := by
  simp only [stepIter, h, pyTruthy, hs]
  rfl

theorem stepIter_answer_none (P : Params) (q : String) (st : REPLState)
    (pr : String) (h : check_final_answer st.vars (P.agent pr false) = none) :
    (stepIter P q st pr).answer = none := by
  rw [stepIter_eq_none P q st pr h]

theorem stepIter_counters (P : Params) (q : String) (st : REPLState)
    (pr : String) : countersLE st (stepIter P q st pr).state := by
  have hbump :
      countersLE st
        { st with total_tokens_root := st.total_tokens_root + (pyWords pr + 100) } :=
    ⟨le_refl _, Nat.le_add_right _ _, le_refl _⟩
  cases hc : check_final_answer st.vars (P.agent pr false) with
  | none =>
    rw [stepIter_eq_none P q st pr hc]
    exact countersLE_trans hbump
      (foldlExec_counters P (extract_code_blocks (P.agent pr false))
        { st with total_tokens_root := st.total_tokens_root + (pyWords pr + 100) })
  | some s =>
    cases hs : s.isEmpty with
    | true =>
      rw [stepIter_eq_empty P q st pr s hc hs]
      exact countersLE_trans hbump
        (foldlExec_counters P (extract_code_blocks (P.agent pr false))
          { st with total_tokens_root := st.total_tokens_root + (pyWords pr + 100) })
    | false =>
      rw [stepIter_eq_truthy P q st pr s hc hs]
      exact hbump

theorem stepIter_next_shape (P : Params) (q : String) (st : REPLState)
    (pr : String) (h : (stepIter P q st pr).answer = none) :
    ∃ buf, (stepIter P q st pr).next = nextPrompt buf q := by
  cases hc : check_final_answer st.vars (P.agent pr false) with
  | none =>
    exact ⟨_, by rw [stepIter_eq_none P q st pr hc]⟩
  | some s =>
    cases hs : s.isEmpty with
    | true =>
      exact ⟨_, by rw [stepIter_eq_empty P q st pr s hc hs]⟩
    | false =>
      rw [stepIter_eq_truthy P q st pr s hc hs] at h
      exact absurd h (by simp)

theorem stepIter_persist (P : Params) (q : String) (st : REPLState) (pr : String)
    (x : String) (v : Value) (hx : x ∉ excludedNames)
    (hb : ∀ b ∈ extract_code_blocks (P.agent pr false), ∀ s ∈ P.denote b,
      bindsVar x s = false)
    (hn : keysNodup st.vars) (hv : lookupEnv st.vars x = some v) :
    lookupEnv (stepIter P q st pr).state.vars x = some v ∧
      keysNodup (stepIter P q st pr).state.vars := by
  cases hc : check_final_answer st.vars (P.agent pr false) with
  | none =>
    rw [stepIter_eq_none P q st pr hc]
    exact foldlExec_persist P x v hx _ hb _ hn hv
  | some s =>
    cases hs : s.isEmpty with
    | true =>
      rw [stepIter_eq_empty P q st pr s hc hs]
      exact foldlExec_persist P x v hx _ hb _ hn hv
    | false =>
      rw [stepIter_eq_truthy P q st pr s hc hs]
      exact ⟨hv, hn⟩

theorem runLoop_counters (P : Params) (q : String) :
    ∀ (fuel : Nat) (st : REPLState) (pr : String) (iter : Nat),
      countersLE st (runLoop P q fuel st pr iter).state := by
  intro fuel
  induction fuel with
  | zero => exact fun st pr iter => countersLE_refl st
  | succ fuel ih =>
    intro st pr iter
    simp only [runLoop]
    cases ha : (stepIter P q st pr).answer with
    | some ans =>
      simp only
      exact stepIter_counters P q st pr
    | none =>
      simp only
      exact countersLE_trans (stepIter_counters P q st pr)
        (ih (stepIter P q st pr).state (stepIter P q st pr).next (iter + 1))

theorem runLoop_exhaust (P : Params) (q : String)
    (H : ∀ p vars, check_final_answer vars (P.agent p false) = none) :
    ∀ (fuel : Nat) (st : REPLState) (pr : String) (iter : Nat),
      (runLoop P q fuel st pr iter).iterations = iter + fuel ∧
      (runLoop P q fuel st pr iter).answer = none := by
  intro fuel
  induction fuel with
  | zero => exact fun st pr iter => ⟨rfl, rfl⟩
  | succ fuel ih =>
    intro st pr iter
    have hstep := stepIter_answer_none P q st pr (H pr st.vars)
    simp only [runLoop, hstep]
    have := ih (stepIter P q st pr).state (stepIter P q st pr).next (iter + 1)
    exact ⟨by rw [this.1]; omega, this.2⟩

theorem runLoop_prompts_head (P : Params) (q : String) (fuel : Nat)
    (st : REPLState) (pr : String) (iter : Nat) (h : 0 < fuel) :
    (runLoop P q fuel st pr iter).prompts.head? = some pr := by
  cases fuel with
  | zero => omega
  | succ fuel =>
    simp only [runLoop]
    cases ha : (stepIter P q st pr).answer <;> simp

theorem runLoop_prompts_shape (P : Params) (q : String) :
    ∀ (fuel : Nat) (st : REPLState) (pr : String) (iter : Nat),
      ∀ p ∈ (runLoop P q fuel st pr iter).prompts,
        p = pr ∨ ∃ buf, p = nextPrompt buf q := by
  intro fuel
  induction fuel with
  | zero => intro st pr iter p hp; simp [runLoop] at hp
  | succ fuel ih =>
    intro st pr iter p hp
    simp only [runLoop] at hp
    cases ha : (stepIter P q st pr).answer with
    | some ans =>
      rw [ha] at hp
      simp at hp
      exact Or.inl hp
    | none =>
      rw [ha] at hp
      simp only [List.mem_cons] at hp
      rcases hp with hp | hp
      · exact Or.inl hp
      · have := ih (stepIter P q st pr).state (stepIter P q st pr).next (iter + 1) p hp
        rcases this with h1 | h1
        · exact Or.inr (h1 ▸ stepIter_next_shape P q st pr ha)
        · exact Or.inr h1

theorem runLoop_persist (P : Params) (q : String) (x : String) (v : Value)
    (hx : x ∉ excludedNames)
    (H : ∀ p, ∀ b ∈ extract_code_blocks (P.agent p false), ∀ s ∈ P.denote b,
      bindsVar x s = false) :
    ∀ (fuel : Nat) (st : REPLState) (pr : String) (iter : Nat),
      keysNodup st.vars → lookupEnv st.vars x = some v →
        lookupEnv (runLoop P q fuel st pr iter).state.vars x = some v := by
  intro fuel
  induction fuel with
  | zero => exact fun st pr iter _ hv => hv
  | succ fuel ih =>
    intro st pr iter hn hv
    have hstep := stepIter_persist P q st pr x v hx (H pr) hn hv
    simp only [runLoop]
    cases ha : (stepIter P q st pr).answer with
    | some ans =>
      simp only
      exact hstep.1
    | none =>
      simp only
      exact ih (stepIter P q st pr).state (stepIter P q st pr).next (iter + 1)
        hstep.2 hstep.1

theorem finalPayload_no_close :
    ∀ (l g : List Char), finalPayload l = some g → (')' : Char) ∉ g := by
  intro l
  induction l with
  | nil => intro g h; simp [finalPayload] at h
  | cons c rest ih =>
    intro g h
    simp only [finalPayload] at h
    split at h
    · split at h
      · cases h
        intro hmem
        have := List.mem_takeWhile_imp hmem
        simp [notCloseParen] at this
      · exact ih g h
    · exact ih g h

theorem strContains_append_right (a b : String) : strContains (a ++ b) b = true := by
  simp only [strContains, decide_eq_true_eq, String.data_append]
  exact (List.suffix_append a.data b.data).isInfix

/-- Stub agent used by concrete witnesses (never consulted or returning
an inert response). -/
def stubAgent : AgentFun := fun _ _ => ""

/-- C1, counterexample to the claim as stated: with an agent whose code
block is `print(context)`, the captured output is the full context, and
the second prompt passed to the root agent contains the literal content
of `external_data`. -/
def c1agent : AgentFun := fun _ _ => "```repl\nprint(context)\n```"

/-- Denotation of the single code block the C1 agent emits. -/
def c1denote : String → List Stmt := fun c =>
  if c = "print(context)\n" then [Stmt.printE (Expr.var "context")] else []

/-- Two-iteration run configuration for the C1 counterexample. -/
def c1params : Params := ⟨c1agent, c1denote, 2⟩

/-- C1: the claim "no prompt on the root path after the first iteration
contains the literal content of external_data — even when executed code
blocks print portions of the context into the captured output" is false
on the code: printing the context puts its full literal content into
the very next root prompt. -/
theorem C1_counterexample :
    (run c1params "TOP-SECRET-PAYROLL" "q").prompts.length = 2 ∧
    strContains ((run c1params "TOP-SECRET-PAYROLL" "q").prompts.getD 1 "")
      "TOP-SECRET-PAYROLL" = true := by
  decide

/-- C1 (amended): the orchestration loop itself never embeds
`external_data` into a root prompt: the first prompt is built from the
length of the context and the query alone (`systemPrompt` takes only
the length), and every later prompt is built from the output buffer and
the query alone — so context content reaches a root prompt only if
executed code emitted it into the captured output. -/
theorem C1_prompt_externalization (P : Params) (ctx q : String) :
    (0 < P.max_iterations →
      (run P ctx q).prompts.head? = some (systemPrompt ctx.length q)) ∧
    (∀ p ∈ (run P ctx q).prompts,
      p = systemPrompt ctx.length q ∨ ∃ buf, p = nextPrompt buf q) := by
  constructor
  · intro h
    simp only [run]
    exact runLoop_prompts_head P q P.max_iterations (initState ctx)
      (systemPrompt ctx.length q) 0 h
  · intro p hp
    simp only [run] at hp
    exact runLoop_prompts_shape P q P.max_iterations (initState ctx)
      (systemPrompt ctx.length q) 0 p hp

/-- Inert run configuration: an agent that never emits markers or code
blocks. -/
def stubNoMarker : Params := ⟨fun _ _ => "keep exploring", fun _ => [], 3⟩

/-- C1 witness: the amended theorem applied at a concrete run. -/
theorem C1_witness :
    (run stubNoMarker "AB" "q").prompts.head? =
      some (systemPrompt ("AB".length) "q") :=
  (C1_prompt_externalization stubNoMarker "AB" "q").1 (by decide)

/-- Faulting code used by the C2 counterexample: an assignment followed
by a raised fault. -/
def c2code : List Stmt := [Stmt.assign "x" (Expr.lit (Value.vInt 5)), Stmt.raiseE "boom"]

/-- C2: the claim that "variable updates made before the fault are kept
in the variables mapping" is false on the code: the save-variables loop
sits inside the `try` after `exec`, so a fault skips it entirely.  The
same assignment alone does persist `x`; with the subsequent fault, `x`
is absent from `variables` (while the output does carry the error
indicator). -/
theorem C2_counterexample :
    lookupEnv (execute_repl_code stubAgent (initState "ctx")
      [Stmt.assign "x" (Expr.lit (Value.vInt 5))]).1.vars "x" = some (Value.vInt 5) ∧
    lookupEnv (execute_repl_code stubAgent (initState "ctx") c2code).1.vars "x" = none ∧
    (execute_repl_code stubAgent (initState "ctx") c2code).2 = "Error: boom" := by
  decide

/-- C2 (amended): a runtime fault in a code block is caught and not
propagated; the captured output for the pass is the output produced
before the fault followed by `Error:` and the fault description (so it
contains the error indicator); the variable dictionary is left exactly
as it was before the pass (no updates from the faulting pass are
merged); and the loop proceeds — a response without a truthy
termination marker never ends the run, faults included. -/
theorem C2_fault_containment (agent : AgentFun) (st : REPLState)
    (code : List Stmt) (e : String)
    (h : (runStmts agent st (execGlobals st) "" code).fault = some e) :
    (execute_repl_code agent st code).1.vars = st.vars ∧
    (execute_repl_code agent st code).2 =
      (runStmts agent st (execGlobals st) "" code).capture ++ "Error: " ++ e ∧
    strContains (execute_repl_code agent st code).2 ("Error: " ++ e) = true ∧
    (∀ (P : Params) (q : String) (st2 : REPLState) (pr : String),
        check_final_answer st2.vars (P.agent pr false) = none →
          (stepIter P q st2 pr).answer = none) := by
  have hvars := (runStmts_state agent st (execGlobals st) "" code).1
  refine ⟨?_, ?_, ?_, ?_⟩
  · simp only [execute_repl_code, h]
    exact hvars
  · simp only [execute_repl_code, h]
  · simp only [execute_repl_code, h]
    rw [String.append_assoc]
    exact strContains_append_right _ _
  · exact fun P q st2 pr hc => stepIter_answer_none P q st2 pr hc

/-- Faulting code with prior output, for the C2 witness. -/
def c2wcode : List Stmt :=
  [Stmt.printE (Expr.lit (Value.vStr "step1")), Stmt.raiseE "boom"]

/-- C2 witness: the amended theorem applied at a concrete faulting
block. -/
theorem C2_witness :
    (execute_repl_code stubAgent (initState "ctx") c2wcode).1.vars =
      (initState "ctx").vars ∧
    (execute_repl_code stubAgent (initState "ctx") c2wcode).2 =
      (runStmts stubAgent (initState "ctx") (execGlobals (initState "ctx")) ""
          c2wcode).capture ++ "Error: " ++ "boom" ∧
    strContains (execute_repl_code stubAgent (initState "ctx") c2wcode).2
      ("Error: " ++ "boom") = true := by
  have T := C2_fault_containment stubAgent (initState "ctx") c2wcode "boom" (by decide)
  exact ⟨T.1, T.2.1, T.2.2.1⟩

/-- Agent for the C3 counterexample: a code block on the first prompt,
then inert responses. -/
def c3agent : AgentFun := fun p _ =>
  if strContains p "Previous REPL output" then "hmm nothing new"
  else "```repl\nprint(1)\n```"

/-- Denotation of the single code block the C3 agent emits. -/
def c3denote : String → List Stmt := fun c =>
  if c = "print(1)\n" then [Stmt.printE (Expr.lit (Value.vInt 1))] else []

/-- Three-iteration run configuration for the C3 counterexample. -/
def c3params : Params := ⟨c3agent, c3denote, 3⟩

set_option maxRecDepth 8000 in
/-- C3: the claim that after a response with neither marker nor code
block the loop proceeds "with last_output empty" is false on the code:
`output_buffer` is only written by `execute_repl_code`, so it is
retained.  Here iteration 2 gets the inert response (no marker, no code
block), yet the prompt for iteration 3 is built from the stale buffer
`1` of iteration 1, not from an empty buffer. -/
theorem C3_counterexample :
    check_final_answer [] "hmm nothing new" = none ∧
    extract_code_blocks "hmm nothing new" = [] ∧
    (run c3params "d" "q").prompts.getD 2 "" = nextPrompt "1\n" "q" ∧
    nextPrompt "1\n" "q" ≠ nextPrompt "" "q" := by
  decide

/-- C3 (amended): when the response of an iteration contains neither a
truthy termination marker nor any code block, the loop proceeds to the
next iteration with the variable dictionary unchanged and with
`last_output` unchanged (retaining the previous captured output, which
is empty only if nothing has been captured yet); the next prompt is
built from that retained buffer. -/
theorem C3_no_code_no_marker (P : Params) (q : String) (st : REPLState)
    (pr : String)
    (h1 : check_final_answer st.vars (P.agent pr false) = none)
    (h2 : extract_code_blocks (P.agent pr false) = []) :
    (stepIter P q st pr).state.vars = st.vars ∧
    (stepIter P q st pr).state.output_buffer = st.output_buffer ∧
    (stepIter P q st pr).answer = none ∧
    (stepIter P q st pr).next = nextPrompt st.output_buffer q := by
  rw [stepIter_eq_none P q st pr h1]
  simp [runBlocks, h2]

/-- Inert run configuration for the C3 witness. -/
def stubHmm : Params := ⟨fun _ _ => "hmm ok", fun _ => [], 3⟩

/-- State with a non-empty output buffer for the C3 witness. -/
def stBuf : REPLState := { initState "d" with output_buffer := "prev" }

/-- C3 witness: the amended theorem applied at a concrete inert
response over a state with buffered output. -/
theorem C3_witness :
    (stepIter stubHmm "q" stBuf "p").state.vars = stBuf.vars ∧
    (stepIter stubHmm "q" stBuf "p").state.output_buffer = "prev" ∧
    (stepIter stubHmm "q" stBuf "p").answer = none ∧
    (stepIter stubHmm "q" stBuf "p").next = nextPrompt "prev" "q" := by
  have T := C3_no_code_no_marker stubHmm "q" stBuf "p" (by decide) (by decide)
  exact ⟨T.1, T.2.1, T.2.2.1, T.2.2.2⟩

/-- C4: when a response carries both a literal `FINAL(...)` marker and a
`FINAL_VAR(...)` marker, the termination detector returns the literal
wrapped text — the literal form is checked first and takes priority. -/
theorem C4_literal_priority (resp : String) (variablesMap : Env) (g nm : List Char)
    (h1 : finalPayload resp.data = some g)
    (h2 : finalVarName resp.data = some nm) :
    check_final_answer variablesMap resp = some (String.mk g) := by
  simp only [check_final_answer, h1]

/-- C4 witness: a concrete response carrying both marker forms. -/
theorem C4_witness :
    check_final_answer [("x", Value.vInt 1)] "FINAL(lit) and FINAL_VAR(x)" =
      some "lit" :=
  C4_literal_priority "FINAL(lit) and FINAL_VAR(x)" [("x", Value.vInt 1)]
    ("lit".data) ("x".data) (by decide) (by decide)

/-- C5: on a response with a `FINAL_VAR(name)` marker and no literal
marker, the detector returns the variable value converted to text when
`name` is bound, and a placeholder string naming the missing variable
when it is not — never a failure. -/
theorem C5_var_marker_resolution (resp : String) (variablesMap : Env)
    (nm : List Char)
    (h1 : finalPayload resp.data = none)
    (h2 : finalVarName resp.data = some nm) :
    (∀ v, lookupEnv variablesMap (String.mk nm) = some v →
        check_final_answer variablesMap resp = some v.toPyStr) ∧
    (lookupEnv variablesMap (String.mk nm) = none →
        check_final_answer variablesMap resp =
          some ("[Variable " ++ String.mk nm ++ " not found]")) := by
  constructor
  · intro v hv
    simp only [check_final_answer, h1, h2, hv]
  · intro hv
    simp only [check_final_answer, h1, h2, hv]

/-- C5 witness: both branches at a concrete response. -/
theorem C5_witness :
    check_final_answer [("ans", Value.vStr "42")] "FINAL_VAR(ans)" = some "42" ∧
    check_final_answer [] "FINAL_VAR(ans)" = some "[Variable ans not found]" := by
  constructor
  · exact (C5_var_marker_resolution "FINAL_VAR(ans)" [("ans", Value.vStr "42")]
      ("ans".data) (by decide) (by decide)).1 (Value.vStr "42") (by decide)
  · exact (C5_var_marker_resolution "FINAL_VAR(ans)" [] ("ans".data)
      (by decide) (by decide)).2 (by decide)

/-- C6: `sub_call_count`, `root_tokens_estimate` and
`sub_tokens_estimate` are non-decreasing across every state update of a
run — across the whole loop, across a single iteration, and across a
single sandbox pass — they start at 0, and the reported totals are at
least 0. -/
theorem C6_counter_monotonicity :
    (∀ (P : Params) (q : String) (fuel : Nat) (st : REPLState) (pr : String)
        (iter : Nat), countersLE st (runLoop P q fuel st pr iter).state) ∧
    (∀ (P : Params) (q : String) (st : REPLState) (pr : String),
        countersLE st (stepIter P q st pr).state) ∧
    (∀ (agent : AgentFun) (st : REPLState) (code : List Stmt),
        countersLE st (execute_repl_code agent st code).1) ∧
    (∀ ctx : String,
        (initState ctx).sub_call_count = 0 ∧
        (initState ctx).total_tokens_root = 0 ∧
        (initState ctx).total_tokens_sub = 0) ∧
    (∀ (P : Params) (ctx q : String),
        0 ≤ (run P ctx q).result.sub_calls ∧
        0 ≤ (run P ctx q).result.root_tokens ∧
        0 ≤ (run P ctx q).result.sub_tokens) := by
  refine ⟨?_, ?_, ?_, ?_, ?_⟩
  · exact fun P q fuel st pr iter => runLoop_counters P q fuel st pr iter
  · exact fun P q st pr => stepIter_counters P q st pr
  · exact fun agent st code => (execute_state agent st code).2
  · exact fun ctx => ⟨rfl, rfl, rfl⟩
  · exact fun P ctx q => ⟨Nat.zero_le _, Nat.zero_le _, Nat.zero_le _⟩

/-- C7: when the agent never emits a termination marker, the run
performs exactly `max_iterations` iterations and reports no resolved
answer — budget exhaustion is a normal terminal outcome. -/
theorem C7_budget_exhaustion (P : Params) (ctx q : String)
    (H : ∀ p variablesMap, check_final_answer variablesMap (P.agent p false) = none) :
    (run P ctx q).result.iterations = P.max_iterations ∧
    (run P ctx q).answer = none := by
  have h := runLoop_exhaust P q H P.max_iterations (initState ctx)
    (systemPrompt ctx.length q) 0
  simp only [run]
  constructor
  · rw [h.1]
    omega
  · exact h.2

/-- C7 witness: a concrete marker-free stub with a budget of 3. -/
theorem C7_witness :
    (run stubNoMarker "data blob" "what is it").result.iterations = 3 ∧
    (run stubNoMarker "data blob" "what is it").answer = none :=
  C7_budget_exhaustion stubNoMarker "data blob" "what is it"
    (fun _ _ => rfl)

/-- C8: a successfully defined binding `x = 5` persists into all
subsequent iterations that do not rebind it (first conjunct, at the
whole-loop level); executing an assignment to `x` makes `variables[x]`
that value — covering both first definition and overwrite by a later
pass — while key-uniqueness is preserved, so re-assignment never
creates a duplicate key (second and third conjuncts); and keys are
never removed by any pass (fourth conjunct). -/
theorem C8_variable_accumulation :
    (∀ (P : Params) (q : String) (x : String) (v : Value),
        x ∉ excludedNames →
        (∀ p, ∀ b ∈ extract_code_blocks (P.agent p false), ∀ s ∈ P.denote b,
            bindsVar x s = false) →
        ∀ (fuel : Nat) (st : REPLState) (pr : String) (iter : Nat),
          keysNodup st.vars → lookupEnv st.vars x = some v →
            lookupEnv (runLoop P q fuel st pr iter).state.vars x = some v) ∧
    (∀ (agent : AgentFun) (st : REPLState) (v : Value),
        lookupEnv
          (execute_repl_code agent st [Stmt.assign "x" (Expr.lit v)]).1.vars "x" =
          some v) ∧
    (∀ (agent : AgentFun) (st : REPLState) (code : List Stmt),
        keysNodup st.vars → keysNodup (execute_repl_code agent st code).1.vars) ∧
    (∀ (agent : AgentFun) (st : REPLState) (code : List Stmt) (k : String),
        (lookupEnv st.vars k).isSome →
          (lookupEnv (execute_repl_code agent st code).1.vars k).isSome) := by
  refine ⟨?_, ?_, ?_, ?_⟩
  · exact fun P q x v hx H fuel st pr iter hn hv =>
      runLoop_persist P q x v hx H fuel st pr iter hn hv
  · exact fun agent st v => execute_assign agent st "x" v (by decide)
  · exact fun agent st code hn => execute_nodup agent st code hn
  · exact fun agent st code k h => execute_keysSome agent st code k h

/-- Inert run configuration for the C8 witness. -/
def stubThink : Params := ⟨fun _ _ => "thinking", fun _ => [], 2⟩

/-- A state already holding `x = 5`, for the C8 witness. -/
def stX : REPLState := { initState "d" with vars := [("x", Value.vInt 5)] }

/-- The state after a pass defining `x = 5`, for the C8 witness. -/
def st5 : REPLState :=
  (execute_repl_code stubAgent (initState "d")
    [Stmt.assign "x" (Expr.lit (Value.vInt 5))]).1

/-- C8 witness: `x = 5` persists across a two-iteration run with inert
responses; defining `x = 5` then redefining `x = 7` overwrites the
value under a single key. -/
theorem C8_witness :
    lookupEnv (runLoop stubThink "q" 2 stX "p" 0).state.vars "x" =
      some (Value.vInt 5) ∧
    lookupEnv st5.vars "x" = some (Value.vInt 5) ∧
    lookupEnv (execute_repl_code stubAgent st5
      [Stmt.assign "x" (Expr.lit (Value.vInt 7))]).1.vars "x" = some (Value.vInt 7) ∧
    keysNodup (execute_repl_code stubAgent st5
      [Stmt.assign "x" (Expr.lit (Value.vInt 7))]).1.vars := by
  refine ⟨?_, ?_, ?_, ?_⟩
  · exact C8_variable_accumulation.1 stubThink "q" "x" (Value.vInt 5) (by decide)
      (by
        intro p b hb s hs
        have h0 : extract_code_blocks (stubThink.agent p false) = [] := rfl
        rw [h0] at hb
        exact absurd hb (List.not_mem_nil b))
      2 stX "p" 0 (by decide) (by decide)
  · exact C8_variable_accumulation.2.1 stubAgent (initState "d") (Value.vInt 5)
  · exact C8_variable_accumulation.2.1 stubAgent st5 (Value.vInt 7)
  · exact C8_variable_accumulation.2.2.1 stubAgent st5
      [Stmt.assign "x" (Expr.lit (Value.vInt 7))] (by decide)

/-- C9: the lazy `FINAL\((.*?)\)` match stops at the first closing
parenthesis, so the answer returned by the literal branch of the
detector never contains a closing parenthesis — a payload that itself
contains parentheses is truncated rather than returned in full. -/
theorem C9_literal_truncation (resp : String) (variablesMap : Env)
    (g : List Char) (h : finalPayload resp.data = some g) :
    check_final_answer variablesMap resp = some (String.mk g) ∧
    (')' : Char) ∉ g := by
  constructor
  · simp only [check_final_answer, h]
  · exact finalPayload_no_close resp.data g h

/-- C9 witness: the payload `a(b)c` is truncated to `a(b`. -/
theorem C9_witness :
    check_final_answer [] "FINAL(a(b)c)" = some "a(b" ∧
    (')' : Char) ∉ ("a(b".data) := by
  have h := C9_literal_truncation "FINAL(a(b)c)" [] ("a(b".data) (by decide)
  exact ⟨h.1, h.2⟩

/-- The two-assignment block of the C10 witness: a loop-index-style
binding and a module-object binding. -/
def c10code : List Stmt :=
  [Stmt.assign "i" (Expr.lit (Value.vInt 3)), Stmt.assign "m" (Expr.var "re")]

/-- The concrete execution outcome of `c10code`, for the C10 witness. -/
def c10out : ExecOut :=
  ⟨initState "d",
    [("context", Value.vStr "d"), ("llm_query", Value.vBuiltin "llm_query"),
     ("print", Value.vBuiltin "print"), ("re", Value.vBuiltin "re"),
     ("json", Value.vBuiltin "json"), ("__builtins__", Value.vBuiltin "__builtins__"),
     ("i", Value.vInt 3), ("m", Value.vBuiltin "re")],
    "", none⟩

/-- C10: after a successful pass, every top-level binding of the final
global namespace outside the six excluded names (`context`,
`llm_query`, `print`, `re`, `json`, `__builtins__`) is merged into the
variable dictionary with its final value — incidental bindings
included — while the six excluded names leave the dictionary entries
untouched. -/
theorem C10_merge_exact_exclusions (agent : AgentFun) (st : REPLState)
    (code : List Stmt) (out : ExecOut)
    (h : runStmts agent st (execGlobals st) "" code = out)
    (hof : out.fault = none) :
    (∀ k, k ∉ excludedNames → ∀ v, lookupEnv out.genv k = some v →
        lookupEnv (execute_repl_code agent st code).1.vars k = some v) ∧
    (∀ k, k ∈ excludedNames →
        lookupEnv (execute_repl_code agent st code).1.vars k =
          lookupEnv st.vars k) := by
  subst h
  have hvars : (runStmts agent st (execGlobals st) "" code).st.vars = st.vars :=
    (runStmts_state agent st (execGlobals st) "" code).1
  have hnodup : keysNodup (runStmts agent st (execGlobals st) "" code).genv :=
    runStmts_nodup agent st (execGlobals st) "" code (keysNodup_execGlobals st)
  constructor
  · intro k hk v hv
    simp only [execute_repl_code, hof]
    rw [lookup_mergeGlobals_of_nodup _ _ k hnodup hk, hv]
  · intro k hk
    simp only [execute_repl_code, hof]
    rw [lookup_mergeGlobals_excluded _ _ k hk, hvars]

/-- C10 witness: the loop index `i` and the module object bound to `m`
both become session variables; the excluded `context` is not copied
into the dictionary. -/
theorem C10_witness :
    lookupEnv (execute_repl_code stubAgent (initState "d") c10code).1.vars "i" =
      some (Value.vInt 3) ∧
    lookupEnv (execute_repl_code stubAgent (initState "d") c10code).1.vars "m" =
      some (Value.vBuiltin "re") ∧
    lookupEnv (execute_repl_code stubAgent (initState "d") c10code).1.vars
      "context" = none := by
  have T := C10_merge_exact_exclusions stubAgent (initState "d") c10code c10out
    (by decide) (by decide)
  refine ⟨?_, ?_, ?_⟩
  · exact T.1 "i" (by decide) (Value.vInt 3) (by decide)
  · exact T.1 "m" (by decide) (Value.vBuiltin "re") (by decide)
  · exact (T.2 "context" (by decide)).trans (by decide)

end RLM
